import Mathlib

/-!
Verification of the chunked, fault-tolerant fetch-and-normalize pipeline of
`src/solaredge_plot.py` (functions `fetch_energy_chunked` and
`fetch_single_chunk`).

Modelling conventions:
* Calendar dates are represented by their proleptic-Gregorian ordinal
  (a `Nat`), exactly as CPython's `datetime.date.toordinal`; adding
  `timedelta(days := k)` is ordinal `+ k`, and `date` comparison is `≤` on
  ordinals.  `toOrdinal` below reimplements CPython's `_ymd2ord`.
* The remote HTTP layer (`requests.get` + `raise_for_status` + JSON
  decoding) is abstracted into a parameter `api : Api`: for a query
  `(timeUnit, startDate, endDate)` it either returns the decoded list of
  raw samples or fails with a `FetchErr` describing the raised
  `requests` exception class (`HTTPError` from a non-2xx status,
  `Timeout`, or `ConnectionError`).
* A raised Python exception that escapes `fetch_energy_chunked` is
  modelled as an `Except.error` result of the pipeline; warnings emitted
  through `st.warning` are collected into a `List Warning`
  (`chunkFailed` for line 40 of the source, `dayFailed` for line 47).
* The `while` loop of `fetch_energy_chunked` is embedded as a
  fuel-indexed recursion `fetchLoopAux`; fuel `end + 1 - start` is proven
  sufficient (`loop_terminates` below, claim C10), so the out-of-fuel
  branch of `fetch_energy_chunked` is unreachable.
-/

namespace SolarEdge

/-- `MAX_DAYS = 31` from line 24 of the source. -/
def MAX_DAYS : Nat := 31

/-- CPython leap-year test (`datetime._is_leap`). -/
def isLeap (y : Nat) : Bool :=
  (y % 4 == 0 && y % 100 != 0) || y % 400 == 0

/-- CPython `datetime._days_in_month`. -/
def daysInMonth (y m : Nat) : Nat :=
  match m with
  | 1 => 31 | 2 => if isLeap y then 29 else 28 | 3 => 31 | 4 => 30
  | 5 => 31 | 6 => 30 | 7 => 31 | 8 => 31 | 9 => 30 | 10 => 31
  | 11 => 30 | 12 => 31 | _ => 0

/-- CPython `datetime._days_before_month`. -/
def daysBeforeMonth (y m : Nat) : Nat :=
  ((List.range' 1 (m - 1)).map (daysInMonth y)).sum

/-- CPython `datetime._days_before_year`. -/
def daysBeforeYear (y : Nat) : Nat :=
  let py := y - 1
  py * 365 + py / 4 - py / 100 + py / 400

/-- CPython `datetime._ymd2ord`: the proleptic-Gregorian ordinal of a
calendar date, the representation used for all dates in this model. -/
def toOrdinal (y m d : Nat) : Nat :=
  daysBeforeYear y + daysBeforeMonth y m + d

/-- The class of the `requests` exception raised by a failing remote
call: `HTTPError` (non-2xx status, raised by `raise_for_status`),
`Timeout` (the 30 s timeout elapsed), or `ConnectionError` (network
failure).  Only `httpError` is caught by the chunk-level
`except requests.exceptions.HTTPError` at line 39; the day-level
`except Exception` at line 46 catches all of them. -/
inductive FetchErr
  | httpError
  | timeout
  | connectionError
deriving DecidableEq

/-- One decoded element of `r.json()["energy"]["values"]`: the parsed
date-time (year, month, day, hour, minute fields of the timestamp
string) and the nullable numeric `value`. -/
structure RawSample where
  dtYear : Nat
  dtMonth : Nat
  dtDay : Nat
  dtHour : Nat
  dtMinute : Nat
  value : Option ℚ
deriving DecidableEq

/-- One row of the normalized dataframe built by `fetch_single_chunk`
(lines 68–75 of the source): the parsed `datetime` column, the
null-filled `value`, the fractional `hour`, the derived calendar
fields, and the rounded hour. -/
structure Row where
  dtYear : Nat
  dtMonth : Nat
  dtDay : Nat
  dtHour : Nat
  dtMinute : Nat
  value : ℚ
  hour : ℚ
  date : Nat × Nat × Nat
  year : Nat
  month : Nat
  day : Nat
  hour_rounded : ℤ
deriving DecidableEq

/-- The remote energy endpoint: a query `(timeUnit, startDate, endDate)`
either returns decoded raw samples or raises one of the `requests`
exceptions.  Dates are ordinals. -/
abbrev Api := String → Nat → Nat → Except FetchErr (List RawSample)

/-- Round-half-to-even on rationals: the rounding used by
`df["hour"].round()` (numpy/pandas round half to even).  For the
minute values 0–59 the only exact tie `minute = 30` is represented
exactly both here and in float64, so the model agrees with the code. -/
def roundHalfEven (q : ℚ) : ℤ :=
  if q - ⌊q⌋ < 1 / 2 then ⌊q⌋
  else if 1 / 2 < q - ⌊q⌋ then ⌊q⌋ + 1
  else if ⌊q⌋ % 2 = 0 then ⌊q⌋ else ⌊q⌋ + 1

/-- The per-sample normalization of `fetch_single_chunk` (lines 68–75):
`value.fillna(0)`, `hour = datetime.hour + datetime.minute / 60`,
derived `date`/`year`/`month`/`day`, and
`hour_rounded = hour.round().astype(int)`. -/
def normalizeSample (s : RawSample) : Row :=
  let hour : ℚ := (s.dtHour : ℚ) + (s.dtMinute : ℚ) / 60
  { dtYear := s.dtYear
    dtMonth := s.dtMonth
    dtDay := s.dtDay
    dtHour := s.dtHour
    dtMinute := s.dtMinute
    value := s.value.getD 0
    hour := hour
    date := (s.dtYear, s.dtMonth, s.dtDay)
    year := s.dtYear
    month := s.dtMonth
    day := s.dtDay
    hour_rounded := roundHalfEven hour }

/-- `fetch_single_chunk` (lines 54–76): one remote call for the
sub-range; when it fails the exception propagates to the caller, when
it succeeds every raw sample is normalized.  (An empty response yields
an empty dataframe; mapping over `[]` models the early return at
line 67.) -/
def fetch_single_chunk (api : Api) (t : String) (s e : Nat) :
    Except FetchErr (List Row) :=
  match api t s e with
  | .error err => .error err
  | .ok data => .ok (data.map normalizeSample)

/-- A warning emitted through `st.warning` inside
`fetch_energy_chunked`: line 40 for a failed chunk, line 47 for a day
skipped during the day-by-day fallback. -/
inductive Warning
  | chunkFailed (s e : Nat)
  | dayFailed (d : Nat)
deriving DecidableEq

/-- `pd.date_range(current, chunk_end)`: every calendar day from `s` to
`e` inclusive, ascending (empty when `e < s`). -/
def daysList (s e : Nat) : List Nat :=
  List.range' s (e + 1 - s)

/-- The day-by-day fallback loop (lines 41–47): for each day, retry the
single-day fetch; append the frame when non-empty, emit a `dayFailed`
warning when the day fails again (any exception is caught there). -/
def fallbackDays (api : Api) (t : String) :
    List Nat → List (List Row) × List Warning
  | [] => ([], [])
  | d :: ds =>
    let rest := fallbackDays api t ds
    match fetch_single_chunk api t d d with
    | .ok df => (if df.isEmpty then rest.1 else df :: rest.1, rest.2)
    | .error _ => (rest.1, .dayFailed d :: rest.2)

/-- State produced by the `while` loop of `fetch_energy_chunked`: the
accumulated `all_frames`, the warnings emitted so far, and — when the
loop was aborted by an uncaught exception — the exception. -/
abbrev LoopRes := List (List Row) × List Warning × Option FetchErr

/-- The `while current <= end_date` loop of `fetch_energy_chunked`
(lines 31–48), fuel-indexed.  Each iteration takes the chunk
`[current, min (current + MAX_DAYS - 1) end]`; on success a non-empty
frame is appended; on `HTTPError` a chunk warning is emitted and the
day-by-day fallback runs; any other exception aborts the loop and
propagates.  In both surviving branches the cursor becomes
`chunk_end + 1`.  `none` means the fuel ran out before the loop
exited (shown impossible for fuel `end + 1 - start` in
`loop_terminates`). -/
def fetchLoopAux (api : Api) (t : String) :
    Nat → Nat → Nat → Option LoopRes
  | 0, current, endd =>
    if current ≤ endd then none else some ([], [], none)
  | fuel + 1, current, endd =>
    -- `chunk_end = min(current + timedelta(days=MAX_DAYS - 1), end_date)`,
    -- written out in full below as `min (current + (MAX_DAYS - 1)) endd`.
    if current ≤ endd then
      match fetch_single_chunk api t current
          (min (current + (MAX_DAYS - 1)) endd) with
      | .ok df =>
        match fetchLoopAux api t fuel
            (min (current + (MAX_DAYS - 1)) endd + 1) endd with
        | none => none
        | some (frames, warns, errOut) =>
          some (if df.isEmpty then frames else df :: frames, warns, errOut)
      | .error err =>
        if err = FetchErr.httpError then
          match fetchLoopAux api t fuel
              (min (current + (MAX_DAYS - 1)) endd + 1) endd with
          | none => none
          | some (frames, warns, errOut) =>
            some ((fallbackDays api t
                    (daysList current (min (current + (MAX_DAYS - 1)) endd))).1
                    ++ frames,
                  Warning.chunkFailed current
                      (min (current + (MAX_DAYS - 1)) endd) ::
                    ((fallbackDays api t
                      (daysList current
                        (min (current + (MAX_DAYS - 1)) endd))).2 ++ warns),
                  errOut)
        else
          some ([], [], some err)
    else some ([], [], none)

/-- `fetch_energy_chunked` (lines 26–52), together with the warnings it
emits: run the chunk loop, then `pd.concat` the collected frames (an
empty collection yields the explicitly empty `pd.DataFrame()`,
i.e. `[]`).  An `Except.error` result models an exception escaping the
function.  The out-of-fuel branch is unreachable (`loop_terminates`). -/
def fetch_energy_chunked (api : Api) (t : String) (s e : Nat) :
    Except FetchErr (List Row) × List Warning :=
  match fetchLoopAux api t (e + 1 - s) s e with
  | some (frames, warns, none) => (.ok frames.flatten, warns)
  | some (_, warns, some err) => (.error err, warns)
  | none => (.ok [], [])

/-- The chunk partition generated by the loop's cursor arithmetic
(lines 31–32, 37, 48): the same `current`/`chunk_end` recurrence as
`fetchLoopAux`, recorded as a list of inclusive sub-ranges. -/
def chunksAux : Nat → Nat → Nat → List (Nat × Nat)
  | 0, _, _ => []
  | fuel + 1, current, endd =>
    if current ≤ endd then
      (current, min (current + (MAX_DAYS - 1)) endd) ::
        chunksAux fuel (min (current + (MAX_DAYS - 1)) endd + 1) endd
    else []

/-- The chunk partition of the range `[s, e]`. -/
def chunksList (s e : Nat) : List (Nat × Nat) :=
  chunksAux (e + 1 - s) s e

/-- The rows a single-day fetch of day `d` contributes: the normalized
rows on success, nothing on failure. -/
def dayRows (api : Api) (t : String) (d : Nat) : List Row :=
  match fetch_single_chunk api t d d with
  | .ok rows => rows
  | .error _ => []

/-- Whether the single-day fetch of `d` raises. -/
def dayFails (api : Api) (t : String) (d : Nat) : Bool :=
  match api t d d with
  | .ok _ => false
  | .error _ => true

/-- Modelled from the spec (§8, fallback correctness): the dataset a
direct per-day fetch of the given days would produce — fetch each day
independently in ascending order and concatenate the resulting rows. -/
def specDirectPerDayFetch (api : Api) (t : String) (days : List Nat) :
    List Row :=
  days.flatMap fun d =>
    match fetch_single_chunk api t d d with
    | .ok rows => rows
    | .error _ => []

/-- A concrete remote service for exercising the partial-failure
scenario on the range `[0, 1]`: the two-day chunk query fails with a
non-2xx status, day 0 keeps failing (with a timeout, caught by the
day-level handler), and day 1 returns one sample. -/
def apiOneDayDown : Api := fun _ a b =>
  if b = 1 ∧ a = 0 then .error FetchErr.httpError
  else if a = 0 then .error FetchErr.timeout
  else .ok [⟨2023, 1, 2, 12, 0, some 5⟩]

/-! ### Helper lemmas about the chunk plan -/

/-- Every chunk emitted by the cursor recurrence starts at the cursor. -/
theorem chunksAux_head (fuel current endd : Nat) :
    ∀ c ∈ (chunksAux fuel current endd).head?, c.1 = current := by
  cases fuel with
  | zero => simp [chunksAux]
  | succ fuel =>
    by_cases hc : current ≤ endd
    · simp [chunksAux, hc]
    · simp [chunksAux, hc]

/-- Main inductive invariant of the chunk plan: with enough fuel, the
chunks each span at most `MAX_DAYS` days, are chained end-to-start, and
their concatenated day lists are exactly the days of `[current, endd]`. -/
theorem chunksAux_spec :
    ∀ fuel current endd, endd + 1 - current ≤ fuel →
      (∀ c ∈ chunksAux fuel current endd,
        c.1 ≤ c.2 ∧ c.2 + 1 - c.1 ≤ MAX_DAYS) ∧
      List.Chain' (fun c c' => c.2 + 1 = c'.1) (chunksAux fuel current endd) ∧
      (chunksAux fuel current endd).flatMap
          (fun c => List.range' c.1 (c.2 + 1 - c.1)) =
        List.range' current (endd + 1 - current) := by
  intro fuel
  induction fuel with
  | zero =>
    intro current endd h
    have h0 : endd + 1 - current = 0 := by omega
    exact ⟨by simp [chunksAux], by simp [chunksAux],
      by simp [chunksAux, h0]⟩
  | succ fuel ih =>
    intro current endd h
    by_cases hc : current ≤ endd
    · have h30 : MAX_DAYS - 1 = 30 := rfl
      have h31 : MAX_DAYS = 31 := rfl
      have hk1 : current ≤ min (current + (MAX_DAYS - 1)) endd := by
        rw [h30]; omega
      have hk2 : min (current + (MAX_DAYS - 1)) endd ≤ endd := min_le_right _ _
      have hk3 : min (current + (MAX_DAYS - 1)) endd ≤ current + 30 := by
        rw [h30]; exact min_le_left _ _
      obtain ⟨ih1, ih2, ih3⟩ :=
        ih (min (current + (MAX_DAYS - 1)) endd + 1) endd (by omega)
      have hunf : chunksAux (fuel + 1) current endd =
          (current, min (current + (MAX_DAYS - 1)) endd) ::
            chunksAux fuel (min (current + (MAX_DAYS - 1)) endd + 1) endd := by
        simp [chunksAux, hc]
      refine ⟨?_, ?_, ?_⟩
      · intro c hcmem
        rw [hunf] at hcmem
        rcases List.mem_cons.mp hcmem with hh | hh
        · subst hh
          exact ⟨hk1, by rw [h31]; omega⟩
        · exact ih1 c hh
      · rw [hunf]
        refine List.chain'_cons'.mpr ⟨?_, ih2⟩
        intro y hy
        have := chunksAux_head fuel
          (min (current + (MAX_DAYS - 1)) endd + 1) endd y hy
        omega
      · rw [hunf, List.flatMap_cons, ih3]
        have e1 : endd + 1 - (min (current + (MAX_DAYS - 1)) endd + 1) =
            endd - min (current + (MAX_DAYS - 1)) endd := by omega
        have happ := List.range'_append current
          (min (current + (MAX_DAYS - 1)) endd + 1 - current)
          (endd - min (current + (MAX_DAYS - 1)) endd) 1
        rw [one_mul,
          show current + (min (current + (MAX_DAYS - 1)) endd + 1 - current) =
            min (current + (MAX_DAYS - 1)) endd + 1 from by omega,
          show endd - min (current + (MAX_DAYS - 1)) endd +
              (min (current + (MAX_DAYS - 1)) endd + 1 - current) =
            endd + 1 - current from by omega] at happ
        rw [e1, happ]
    · have h0 : endd + 1 - current = 0 := by omega
      exact ⟨by simp [chunksAux, hc], by simp [chunksAux, hc],
        by simp [chunksAux, hc, h0]⟩

/-- With fuel at least `endd + 1 - current`, the chunk loop runs to
completion (the fuel guard is never hit): on every surviving branch the
cursor moves to `chunk_end + 1 > current`, so each iteration strictly
shrinks `endd + 1 - current`. -/
theorem fetchLoopAux_isSome (api : Api) (t : String) :
    ∀ fuel current endd, endd + 1 - current ≤ fuel →
      (fetchLoopAux api t fuel current endd).isSome = true := by
  intro fuel
  induction fuel with
  | zero =>
    intro current endd h
    have hc : ¬ current ≤ endd := by omega
    simp [fetchLoopAux, hc]
  | succ fuel ih =>
    intro current endd h
    by_cases hc : current ≤ endd
    · have h30 : MAX_DAYS - 1 = 30 := rfl
      have hrec : (fetchLoopAux api t fuel
          (min (current + (MAX_DAYS - 1)) endd + 1) endd).isSome = true := by
        apply ih
        rw [h30]
        omega
      simp only [fetchLoopAux, if_pos hc]
      cases hfc : fetch_single_chunk api t current
          (min (current + (MAX_DAYS - 1)) endd) with
      | ok df =>
        cases hr : fetchLoopAux api t fuel
            (min (current + (MAX_DAYS - 1)) endd + 1) endd with
        | none => rw [hr] at hrec; simp at hrec
        | some r => obtain ⟨frames, warns, errOut⟩ := r; simp
      | error err =>
        by_cases he : err = FetchErr.httpError
        · subst he
          cases hr : fetchLoopAux api t fuel
              (min (current + (MAX_DAYS - 1)) endd + 1) endd with
          | none => rw [hr] at hrec; simp at hrec
          | some r => obtain ⟨frames, warns, errOut⟩ := r; simp
        · simp [he]
    · simp [fetchLoopAux, hc]

/-- Once the cursor is past the end date the loop exits at once, for any
amount of fuel. -/
theorem fetchLoopAux_exit (api : Api) (t : String) (fuel current endd : Nat)
    (h : endd < current) :
    fetchLoopAux api t fuel current endd = some ([], [], none) := by
  cases fuel <;> simp [fetchLoopAux, Nat.not_le.mpr h]

/-! ### Claim theorems: chunk planning and termination -/

/-- C2: for every date range with `start ≤ end`, the chunk partition
produced by the fetch loop's cursor arithmetic consists of sub-ranges
that each span at most 31 calendar days inclusive, that are chained
contiguously (each next chunk starts the day after the previous chunk
ends, hence non-overlapping and in ascending start-date order), whose
concatenated days are exactly the days of the input range, and whose
first chunk starts at `start`. -/
theorem chunk_partition_correct (s e : Nat) (h : s ≤ e) :
    (∀ c ∈ chunksList s e, c.1 ≤ c.2 ∧ c.2 + 1 - c.1 ≤ MAX_DAYS) ∧
    List.Chain' (fun c c' => c.2 + 1 = c'.1) (chunksList s e) ∧
    (chunksList s e).flatMap (fun c => List.range' c.1 (c.2 + 1 - c.1)) =
      List.range' s (e + 1 - s) ∧
    (chunksList s e).head?.map Prod.fst = some s := by
  obtain ⟨h1, h2, h3⟩ := chunksAux_spec (e + 1 - s) s e (le_refl _)
  refine ⟨h1, h2, h3, ?_⟩
  have hne : chunksList s e ≠ [] := by
    intro habs
    have h3' : List.range' s (e + 1 - s) = [] := by
      rw [← h3, show chunksAux (e + 1 - s) s e = chunksList s e from rfl,
        habs]
      rfl
    rw [List.range'_eq_nil] at h3'
    omega
  obtain ⟨c, cs, hcons⟩ := List.exists_cons_of_ne_nil hne
  have hhd := chunksAux_head (e + 1 - s) s e
  rw [show chunksAux (e + 1 - s) s e = chunksList s e from rfl, hcons] at hhd
  simp only [List.head?_cons, Option.mem_some_iff] at hhd
  rw [hcons]
  simp [hhd c rfl]

/-- C2 witness: the partition properties at the concrete range
`[0, 40]`. -/
theorem chunk_partition_correct_witness :
    0 ≤ 40 ∧
    ((∀ c ∈ chunksList 0 40, c.1 ≤ c.2 ∧ c.2 + 1 - c.1 ≤ MAX_DAYS) ∧
     List.Chain' (fun c c' => c.2 + 1 = c'.1) (chunksList 0 40) ∧
     (chunksList 0 40).flatMap (fun c => List.range' c.1 (c.2 + 1 - c.1)) =
       List.range' 0 (40 + 1 - 0) ∧
     (chunksList 0 40).head?.map Prod.fst = some 0) :=
  ⟨by decide, chunk_partition_correct 0 40 (by decide)⟩

/-- C7: with an end date strictly before the start date the chunk plan
is empty and the pipeline returns an empty dataset with no warnings and
no error, for every possible remote behaviour `api` — in particular the
result does not depend on the remote service at all, so no remote
request is issued. -/
theorem reversed_range_yields_empty (api : Api) (t : String) (s e : Nat)
    (h : e < s) :
    chunksList s e = [] ∧
    fetch_energy_chunked api t s e = (.ok [], []) := by
  have h0 : e + 1 - s = 0 := by omega
  have hc : ¬ s ≤ e := by omega
  constructor
  · rw [chunksList, h0]
    rfl
  · rw [fetch_energy_chunked, h0]
    simp [fetchLoopAux, hc]

/-- C7 witness: the empty result at the concrete reversed range
`start = 2, end = 1` against a remote service that would fail every
request it received. -/
theorem reversed_range_yields_empty_witness :
    1 < 2 ∧
    (chunksList 2 1 = [] ∧
     fetch_energy_chunked (fun _ _ _ => .error FetchErr.timeout)
       "QUARTER_OF_AN_HOUR" 2 1 = (.ok [], [])) :=
  ⟨by decide,
   reversed_range_yields_empty (fun _ _ _ => .error FetchErr.timeout)
     "QUARTER_OF_AN_HOUR" 2 1 (by decide)⟩

/-- C8: the chunk partition of the range 2023-01-01 .. 2023-03-05 with
`MAX_DAYS = 31` is exactly
`[2023-01-01 .. 2023-01-31], [2023-02-01 .. 2023-03-03],
[2023-03-04 .. 2023-03-05]`, in that order. -/
theorem example_partition_2023 :
    chunksList (toOrdinal 2023 1 1) (toOrdinal 2023 3 5) =
      [(toOrdinal 2023 1 1, toOrdinal 2023 1 31),
       (toOrdinal 2023 2 1, toOrdinal 2023 3 3),
       (toOrdinal 2023 3 4, toOrdinal 2023 3 5)] := by decide

/-- C10: the chunked fetch loop terminates for every pair of start and
end dates: fuel `end + 1 - start` always suffices, because on both the
success branch and the (surviving) failure branch the cursor advances
to `chunk_end + 1`, strictly past its old value, so `end + 1 - cursor`
strictly decreases until the cursor exceeds the end date. -/
theorem loop_terminates (api : Api) (t : String) (s e : Nat) :
    (fetchLoopAux api t (e + 1 - s) s e).isSome = true :=
  fetchLoopAux_isSome api t (e + 1 - s) s e (le_refl _)

/-! ### Helper lemmas about the day-by-day fallback -/

/-- Flattening the frames collected by the fallback gives exactly the
per-day contributions (skipping an empty frame does not change the
concatenation, and a failed day contributes nothing). -/
theorem fallbackDays_flatten (api : Api) (t : String) :
    ∀ days : List Nat,
      ((fallbackDays api t days).1).flatten = days.flatMap (dayRows api t) := by
  intro days
  induction days with
  | nil => simp [fallbackDays]
  | cons d ds ih =>
    cases happi : api t d d with
    | ok data =>
      have hfc : fetch_single_chunk api t d d =
          .ok (data.map normalizeSample) := by
        rw [fetch_single_chunk, happi]
      by_cases hemp : (data.map normalizeSample).isEmpty
      · have hnil : data.map normalizeSample = [] := List.isEmpty_iff.mp hemp
        simp [fallbackDays, hfc, hemp, dayRows, hnil, ih]
      · simp [fallbackDays, hfc, hemp, dayRows, ih]
    | error err =>
      have hfc : fetch_single_chunk api t d d = .error err := by
        rw [fetch_single_chunk, happi]
      simp [fallbackDays, hfc, dayRows, ih]

/-- The warnings emitted by the fallback are exactly one `dayFailed`
per failing day, in day order. -/
theorem fallbackDays_snd (api : Api) (t : String) :
    ∀ days : List Nat,
      (fallbackDays api t days).2 =
        (days.filter (dayFails api t)).map Warning.dayFailed := by
  intro days
  induction days with
  | nil => simp [fallbackDays]
  | cons d ds ih =>
    cases happi : api t d d with
    | ok data =>
      have hfc : fetch_single_chunk api t d d =
          .ok (data.map normalizeSample) := by
        rw [fetch_single_chunk, happi]
      have hdf : dayFails api t d = false := by rw [dayFails, happi]
      by_cases hemp : (data.map normalizeSample).isEmpty
      · simp [fallbackDays, hfc, hemp, hdf, ih]
      · simp [fallbackDays, hfc, hemp, hdf, ih]
    | error err =>
      have hfc : fetch_single_chunk api t d d = .error err := by
        rw [fetch_single_chunk, happi]
      have hdf : dayFails api t d = true := by rw [dayFails, happi]
      simp [fallbackDays, hfc, hdf, ih]

/-- When every day of the list fails, the fallback collects no frame
and warns once per day. -/
theorem fallbackDays_allFail (api : Api) (t : String) :
    ∀ days : List Nat, (∀ d ∈ days, dayFails api t d = true) →
      fallbackDays api t days = ([], days.map Warning.dayFailed) := by
  intro days
  induction days with
  | nil => intro _; rfl
  | cons d ds ih =>
    intro hall
    have hd : dayFails api t d = true := hall d (List.mem_cons_self d ds)
    have hfc : ∃ err, fetch_single_chunk api t d d = .error err := by
      rw [fetch_single_chunk]
      rw [dayFails] at hd
      cases happi : api t d d with
      | ok data => rw [happi] at hd; simp at hd
      | error err => exact ⟨err, rfl⟩
    obtain ⟨err, hfc⟩ := hfc
    have hds := ih (fun x hx => hall x (List.mem_cons_of_mem d hx))
    simp [fallbackDays, hfc, hds]

/-- Half-to-even rounding always lands on a nearest integer: the
distance to the rounded value is at most 1/2. -/
theorem roundHalfEven_near (q : ℚ) :
    |(roundHalfEven q : ℚ) - q| ≤ 1 / 2 := by
  have h1 : (⌊q⌋ : ℚ) ≤ q := Int.floor_le q
  have h2 : q < ⌊q⌋ + 1 := Int.lt_floor_add_one q
  rw [roundHalfEven]
  by_cases hlt : q - ⌊q⌋ < 1 / 2
  · rw [if_pos hlt, abs_le]
    constructor <;> linarith
  · rw [if_neg hlt]
    by_cases hgt : 1 / 2 < q - ⌊q⌋
    · rw [if_pos hgt]
      push_cast
      rw [abs_le]
      constructor <;> linarith
    · rw [if_neg hgt]
      have heq : q - ⌊q⌋ = 1 / 2 :=
        le_antisymm (not_lt.mp hgt) (not_lt.mp hlt)
      by_cases hev : ⌊q⌋ % 2 = 0
      · rw [if_pos hev, abs_le]
        constructor <;> linarith
      · rw [if_neg hev]
        push_cast
        rw [abs_le]
        constructor <;> linarith

/-! ### Claim theorems: normalization and fallback refinement -/

/-- C3: normalization fills a missing numeric value with 0 (via
`Option.getD`), computes the fractional hour-of-day as
`hour + minute / 60`, and stores as `hour_rounded` an integer at
distance at most 1/2 from the fractional hour (i.e. a nearest
integer; ties are resolved half-to-even by pandas' `round`); in
particular a sample with a null value becomes 0 and a 14:40 timestamp
gets rounded hour-of-day 15. -/
theorem normalization_rules (s : RawSample) :
    (normalizeSample s).value = s.value.getD 0 ∧
    (normalizeSample s).hour = (s.dtHour : ℚ) + (s.dtMinute : ℚ) / 60 ∧
    |((normalizeSample s).hour_rounded : ℚ) - (normalizeSample s).hour| ≤
      1 / 2 ∧
    (normalizeSample ⟨2023, 6, 1, 14, 40, none⟩).value = 0 ∧
    (normalizeSample ⟨2023, 6, 1, 14, 40, none⟩).hour_rounded = 15 := by
  refine ⟨rfl, rfl, roundHalfEven_near _, rfl, ?_⟩
  simp only [normalizeSample, Nat.cast_ofNat]
  rw [show (14 : ℚ) + 40 / 60 = 44 / 3 by norm_num]
  have hf : ⌊(44 / 3 : ℚ)⌋ = 14 := by
    rw [Int.floor_eq_iff]
    constructor <;> norm_num
  rw [roundHalfEven, hf]
  norm_num

/-- C4: whenever every single-day fetch of the given days succeeds, the
frames accumulated by the day-level fallback concatenate to exactly
what a direct per-day fetch of those days would have produced, in the
same ascending-day order, and the fallback emits no day warning. -/
theorem fallback_equals_direct_per_day (api : Api) (t : String) (s e : Nat)
    (hok : ∀ d ∈ daysList s e, ∃ rows, api t d d = .ok rows) :
    ((fallbackDays api t (daysList s e)).1).flatten =
      specDirectPerDayFetch api t (daysList s e) ∧
    (fallbackDays api t (daysList s e)).2 = [] := by
  constructor
  · rw [fallbackDays_flatten]
    rfl
  · rw [fallbackDays_snd]
    have hfil : (daysList s e).filter (dayFails api t) = [] := by
      rw [List.filter_eq_nil_iff]
      intro d hd
      obtain ⟨rows, hrows⟩ := hok d hd
      simp [dayFails, hrows]
    rw [hfil]
    rfl

/-- C4 witness: the refinement at the two-day range `[0, 1]` against a
remote service that answers every request with one sample. -/
theorem fallback_equals_direct_per_day_witness :
    (∀ d ∈ daysList 0 1, ∃ rows,
      (fun (_ : String) (_ _ : Nat) =>
        (Except.ok [⟨2023, 1, 2, 12, 0, some 5⟩] :
          Except FetchErr (List RawSample))) "QUARTER_OF_AN_HOUR" d d =
        .ok rows) ∧
    (((fallbackDays (fun _ _ _ => .ok [⟨2023, 1, 2, 12, 0, some 5⟩])
        "QUARTER_OF_AN_HOUR" (daysList 0 1)).1).flatten =
      specDirectPerDayFetch (fun _ _ _ => .ok [⟨2023, 1, 2, 12, 0, some 5⟩])
        "QUARTER_OF_AN_HOUR" (daysList 0 1) ∧
     (fallbackDays (fun _ _ _ => .ok [⟨2023, 1, 2, 12, 0, some 5⟩])
        "QUARTER_OF_AN_HOUR" (daysList 0 1)).2 = []) :=
  ⟨fun _ _ => ⟨[⟨2023, 1, 2, 12, 0, some 5⟩], rfl⟩,
   fallback_equals_direct_per_day
     (fun _ _ _ => .ok [⟨2023, 1, 2, 12, 0, some 5⟩]) "QUARTER_OF_AN_HOUR"
     0 1 (fun _ _ => ⟨[⟨2023, 1, 2, 12, 0, some 5⟩], rfl⟩)⟩

/-! ### Error propagation (claim C1) -/

/-- With a remote service whose only failure mode is an HTTP error, the
loop always completes without an escaping exception: the only uncaught
branch is `err ≠ HTTPError`. -/
theorem fetchLoopAux_http_ok (api : Api) (t : String)
    (hhttp : ∀ a b err, api t a b = .error err → err = FetchErr.httpError) :
    ∀ fuel current endd, endd + 1 - current ≤ fuel →
      ∃ frames warns,
        fetchLoopAux api t fuel current endd = some (frames, warns, none) := by
  intro fuel
  induction fuel with
  | zero =>
    intro current endd h
    have hc : ¬ current ≤ endd := by omega
    exact ⟨[], [], by simp [fetchLoopAux, hc]⟩
  | succ fuel ih =>
    intro current endd h
    by_cases hc : current ≤ endd
    · have h30 : MAX_DAYS - 1 = 30 := rfl
      obtain ⟨frames, warns, hrec⟩ :=
        ih (min (current + (MAX_DAYS - 1)) endd + 1) endd (by rw [h30]; omega)
      cases happi : api t current (min (current + (MAX_DAYS - 1)) endd) with
      | ok data =>
        have hfc : fetch_single_chunk api t current
            (min (current + (MAX_DAYS - 1)) endd) =
            .ok (data.map normalizeSample) := by
          rw [fetch_single_chunk, happi]
        refine ⟨if (data.map normalizeSample).isEmpty then frames
            else (data.map normalizeSample) :: frames, warns, ?_⟩
        simp [fetchLoopAux, hc, hfc, hrec]
      | error err =>
        have herr : err = FetchErr.httpError := hhttp _ _ _ happi
        subst herr
        have hfc : fetch_single_chunk api t current
            (min (current + (MAX_DAYS - 1)) endd) =
            .error FetchErr.httpError := by
          rw [fetch_single_chunk, happi]
        refine ⟨(fallbackDays api t
            (daysList current (min (current + (MAX_DAYS - 1)) endd))).1 ++
              frames,
          Warning.chunkFailed current (min (current + (MAX_DAYS - 1)) endd) ::
            ((fallbackDays api t
              (daysList current (min (current + (MAX_DAYS - 1)) endd))).2 ++
              warns), ?_⟩
        simp [fetchLoopAux, hc, hfc, hrec]
    · exact ⟨[], [], by simp [fetchLoopAux, hc]⟩

/-- C1 counterexample: the claim fails as stated.  A chunk fetch that
fails with a timeout — one of the failure causes in scope — is not
absorbed: only `requests.exceptions.HTTPError` is caught at line 39, so
the `Timeout` exception raised for the chunk `[0, 0]` propagates past
the `fetch_energy_chunked` boundary (modelled by the `Except.error`
result), with no fallback and no warning. -/
theorem timeout_escapes_counterexample :
    fetch_energy_chunked (fun _ _ _ => .error FetchErr.timeout)
      "QUARTER_OF_AN_HOUR" 0 0 = (.error FetchErr.timeout, []) := rfl

/-- C1 (amended): for every planned chunk, if the fetch of that chunk
fails with a non-2xx HTTP status (`requests.exceptions.HTTPError`), the
coordinator does not raise a fatal error: the failure is absorbed into
the per-day fallback and surfaced only as recoverable warnings, and no
exception propagates past the `fetch_energy_chunked` boundary; failures
of the other in-scope causes (timeout, network error) at the chunk
level are NOT caught and do propagate. -/
theorem http_failures_never_escape (api : Api) (t : String) (s e : Nat)
    (hhttp : ∀ a b err, api t a b = .error err → err = FetchErr.httpError) :
    ∃ rows warns, fetch_energy_chunked api t s e = (.ok rows, warns) := by
  obtain ⟨frames, warns, hloop⟩ :=
    fetchLoopAux_http_ok api t hhttp (e + 1 - s) s e (le_refl _)
  exact ⟨frames.flatten, warns, by rw [fetch_energy_chunked, hloop]⟩

/-- C1 witness: a remote service that always fails with an HTTP error
satisfies the hypothesis, and the pipeline indeed returns a dataset
(never an escaping exception) on the range `[0, 3]`. -/
theorem http_failures_never_escape_witness :
    (∀ a b err,
      (fun (_ : String) (_ _ : Nat) =>
        (Except.error FetchErr.httpError : Except FetchErr (List RawSample)))
        "QUARTER_OF_AN_HOUR" a b = .error err →
        err = FetchErr.httpError) ∧
    ∃ rows warns,
      fetch_energy_chunked (fun _ _ _ => .error FetchErr.httpError)
        "QUARTER_OF_AN_HOUR" 0 3 = (.ok rows, warns) :=
  ⟨fun _ _ _ h => by injection h with h'; exact h'.symm,
   http_failures_never_escape (fun _ _ _ => .error FetchErr.httpError)
     "QUARTER_OF_AN_HOUR" 0 3
     (fun _ _ _ h => by injection h with h'; exact h'.symm)⟩

/-! ### Determinism (claim C9) -/

/-- The fallback depends only on the remote responses for the single
days it queries. -/
theorem fallbackDays_congr (api1 api2 : Api) (t : String) :
    ∀ days : List Nat, (∀ d ∈ days, api1 t d d = api2 t d d) →
      fallbackDays api1 t days = fallbackDays api2 t days := by
  intro days
  induction days with
  | nil => intro _; rfl
  | cons d ds ih =>
    intro hag
    have hd := hag d (List.mem_cons_self d ds)
    have hds := ih (fun x hx => hag x (List.mem_cons_of_mem d hx))
    simp [fallbackDays, fetch_single_chunk, hd, hds]

/-- The whole loop depends only on the remote responses for sub-ranges
`[a, b]` with `a ≤ b ≤ e`: two remote sources that agree there produce
identical loop results. -/
theorem fetchLoopAux_congr (api1 api2 : Api) (t : String) (e : Nat)
    (hag : ∀ a b, a ≤ b → b ≤ e → api1 t a b = api2 t a b) :
    ∀ fuel current,
      fetchLoopAux api1 t fuel current e =
        fetchLoopAux api2 t fuel current e := by
  intro fuel
  induction fuel with
  | zero => intro current; rfl
  | succ fuel ih =>
    intro current
    by_cases hc : current ≤ e
    · have h30 : MAX_DAYS - 1 = 30 := rfl
      have hchunk : api1 t current (min (current + (MAX_DAYS - 1)) e) =
          api2 t current (min (current + (MAX_DAYS - 1)) e) :=
        hag _ _ (by rw [h30]; omega) (min_le_right _ _)
      have hfb : fallbackDays api1 t
          (daysList current (min (current + (MAX_DAYS - 1)) e)) =
          fallbackDays api2 t
            (daysList current (min (current + (MAX_DAYS - 1)) e)) := by
        apply fallbackDays_congr
        intro d hd
        rw [daysList, List.mem_range'] at hd
        obtain ⟨i, hi, rfl⟩ := hd
        have hmr := min_le_right (current + (MAX_DAYS - 1)) e
        exact hag _ _ (le_refl _) (by omega)
      simp only [fetchLoopAux, if_pos hc, fetch_single_chunk, hchunk, hfb, ih]
    · simp [fetchLoopAux, hc]

/-- C9: `fetch_energy_chunked` is deterministic in
`(time_unit, start_date, end_date)` given a fixed remote source: its
result is a pure function of those inputs and of the remote responses
on the sub-ranges of the requested range, so two runs with the same
granularity and date range against an unchanged remote source yield
equal datasets and warning lists, and the result may be cached by that
key. -/
theorem fetch_deterministic_cacheable (api1 api2 : Api) (t : String)
    (s e : Nat)
    (hag : ∀ a b, a ≤ b → b ≤ e → api1 t a b = api2 t a b) :
    fetch_energy_chunked api1 t s e = fetch_energy_chunked api2 t s e := by
  rw [fetch_energy_chunked, fetch_energy_chunked,
    fetchLoopAux_congr api1 api2 t e hag]

/-- C9 witness: two (syntactically distinct but extensionally equal on
the range) remote sources at the concrete key
`("QUARTER_OF_AN_HOUR", 0, 3)`. -/
theorem fetch_deterministic_cacheable_witness :
    (∀ a b, a ≤ b → b ≤ 3 →
      (fun (_ : String) (_ _ : Nat) =>
        (Except.ok [] : Except FetchErr (List RawSample))) "QUARTER_OF_AN_HOUR"
          a b =
      (fun (_ : String) (x _ : Nat) =>
        if x ≤ 3 then (Except.ok [] : Except FetchErr (List RawSample))
        else .error FetchErr.timeout) "QUARTER_OF_AN_HOUR" a b) ∧
    fetch_energy_chunked (fun _ _ _ => .ok []) "QUARTER_OF_AN_HOUR" 0 3 =
      fetch_energy_chunked
        (fun _ x _ => if x ≤ 3 then .ok [] else .error FetchErr.timeout)
        "QUARTER_OF_AN_HOUR" 0 3 :=
  ⟨fun a b hab hb3 => by
     simp only []
     rw [if_pos (le_trans hab hb3)],
   fetch_deterministic_cacheable (fun _ _ _ => .ok [])
     (fun _ x _ => if x ≤ 3 then .ok [] else .error FetchErr.timeout)
     "QUARTER_OF_AN_HOUR" 0 3
     (fun a b hab hb3 => by
       simp only []
       rw [if_pos (le_trans hab hb3)])⟩

/-! ### Partial and total failure (claims C5, C6) -/

/-- Evaluation of a range that fits in one chunk whose chunk fetch
fails with an HTTP error: a chunk warning is emitted, then the
day-by-day fallback contributes exactly the per-day rows, with one
`dayFailed` warning per failing day. -/
theorem single_chunk_http_fail_run (api : Api) (t : String) (s e : Nat)
    (hse : s ≤ e) (hspan : e ≤ s + 30)
    (hchunk : api t s e = .error FetchErr.httpError) :
    fetch_energy_chunked api t s e =
      (.ok ((daysList s e).flatMap (dayRows api t)),
       Warning.chunkFailed s e ::
         ((daysList s e).filter (dayFails api t)).map Warning.dayFailed) := by
  have h30 : MAX_DAYS - 1 = 30 := rfl
  have hmin : min (s + (MAX_DAYS - 1)) e = e := by rw [h30]; omega
  have hfuel : e + 1 - s = (e - s) + 1 := by omega
  have hfc : fetch_single_chunk api t s e = .error FetchErr.httpError := by
    rw [fetch_single_chunk, hchunk]
  have hexit : fetchLoopAux api t (e - s) (e + 1) e =
      some ([], [], none) :=
    fetchLoopAux_exit api t _ _ _ (by omega)
  rw [fetch_energy_chunked, hfuel]
  simp only [fetchLoopAux, if_pos hse, hmin, hfc, hexit]
  simp [fallbackDays_flatten, fallbackDays_snd]

/-- Under a remote service that fails every request with an HTTP
error, the loop collects no frame and emits one chunk warning per
chunk plus one day warning per day. -/
theorem fetchLoopAux_allHttp (api : Api) (t : String)
    (hall : ∀ a b, api t a b = .error FetchErr.httpError) :
    ∀ fuel current endd, endd + 1 - current ≤ fuel →
      ∃ warns,
        fetchLoopAux api t fuel current endd = some ([], warns, none) ∧
        warns.length =
          (chunksAux fuel current endd).length + (endd + 1 - current) := by
  intro fuel
  induction fuel with
  | zero =>
    intro current endd h
    have hc : ¬ current ≤ endd := by omega
    have h0 : endd + 1 - current = 0 := by omega
    exact ⟨[], by simp [fetchLoopAux, hc], by simp [chunksAux, h0]⟩
  | succ fuel ih =>
    intro current endd h
    by_cases hc : current ≤ endd
    · have h30 : MAX_DAYS - 1 = 30 := rfl
      obtain ⟨warns, hrec, hlen⟩ :=
        ih (min (current + (MAX_DAYS - 1)) endd + 1) endd (by rw [h30]; omega)
      have hfc : fetch_single_chunk api t current
          (min (current + (MAX_DAYS - 1)) endd) =
          .error FetchErr.httpError := by
        rw [fetch_single_chunk, hall]
      have hfb : fallbackDays api t
          (daysList current (min (current + (MAX_DAYS - 1)) endd)) =
          ([], (daysList current
            (min (current + (MAX_DAYS - 1)) endd)).map Warning.dayFailed) := by
        apply fallbackDays_allFail
        intro d _
        rw [dayFails, hall]
      refine ⟨Warning.chunkFailed current
          (min (current + (MAX_DAYS - 1)) endd) ::
          ((daysList current
            (min (current + (MAX_DAYS - 1)) endd)).map Warning.dayFailed ++
            warns), ?_, ?_⟩
      · simp [fetchLoopAux, hc, hfc, hfb, hrec]
      · have hdl : (daysList current
            (min (current + (MAX_DAYS - 1)) endd)).length =
            min (current + (MAX_DAYS - 1)) endd + 1 - current := by
          rw [daysList, List.length_range']
        have hcl : (chunksAux (fuel + 1) current endd).length =
            (chunksAux fuel
              (min (current + (MAX_DAYS - 1)) endd + 1) endd).length + 1 := by
          simp [chunksAux, hc]
        simp only [List.length_cons, List.length_append, List.length_map]
        rw [hdl, hcl, hlen]
        have hmr := min_le_right (current + (MAX_DAYS - 1)) endd
        have hml : current ≤ min (current + (MAX_DAYS - 1)) endd := by
          rw [h30]; omega
        omega
    · have h0 : endd + 1 - current = 0 := by omega
      exact ⟨[], by simp [fetchLoopAux, hc], by simp [chunksAux, hc, h0]⟩

/-- The rows contributed by one member of a list survive in the
concatenation over the list. -/
theorem sublist_flatMap_of_mem {α β : Type} (f : α → List β) :
    ∀ (l : List α) (a : α), a ∈ l → (f a).Sublist (l.flatMap f) := by
  intro l
  induction l with
  | nil =>
    intro a ha
    cases ha
  | cons x xs ih =>
    intro a ha
    rw [List.flatMap_cons]
    rcases List.mem_cons.mp ha with h | h
    · subst h
      exact List.sublist_append_left _ _
    · exact (ih a h).trans (List.sublist_append_right _ _)

/-- C5 counterexample: the claim fails as stated on a one-day chunk.
On the range `[0, 0]` the chunk fetch fails, its only day fails again
on fallback, and every other day of the chunk (there is none) succeeds
with non-empty data vacuously — yet the final dataset is empty,
contradicting the claimed "the result is not empty" (the warning for
the missing day is emitted, and the rows of every other day are
vacuously present). -/
theorem one_day_failure_empty_counterexample :
    fetch_energy_chunked (fun _ _ _ => .error FetchErr.httpError)
      "QUARTER_OF_AN_HOUR" 0 0 =
      (.ok [], [Warning.chunkFailed 0 0, Warning.dayFailed 0]) := rfl

/-- C5 (amended: the chunk must contain at least one day other than
the failing one, i.e. `start < end`): if exactly one day within a
single-chunk range fails permanently — the chunk fetch fails with an
HTTP error, that one day fails again on fallback, and every other day
succeeds with non-empty data — then the final dataset contains the
rows of every other day of the chunk, a `dayFailed` warning is emitted
for the one missing day, and the result is not empty. -/
theorem one_day_permanent_failure (api : Api) (t : String) (s e d0 : Nat)
    (hse : s < e) (hspan : e ≤ s + 30)
    (hchunk : api t s e = .error FetchErr.httpError)
    (hd0mem : d0 ∈ daysList s e)
    (hd0 : dayFails api t d0 = true)
    (hothers : ∀ d ∈ daysList s e, d ≠ d0 →
      ∃ rows, api t d d = .ok rows ∧ rows ≠ []) :
    ∃ rows warns,
      fetch_energy_chunked api t s e = (.ok rows, warns) ∧
      (∀ d ∈ daysList s e, d ≠ d0 → (dayRows api t d).Sublist rows) ∧
      Warning.dayFailed d0 ∈ warns ∧
      rows ≠ [] := by
  have hrun :=
    single_chunk_http_fail_run api t s e (le_of_lt hse) hspan hchunk
  refine ⟨_, _, hrun, ?_, ?_, ?_⟩
  · intro d hd _
    exact sublist_flatMap_of_mem _ _ d hd
  · apply List.mem_cons_of_mem
    exact List.mem_map.mpr ⟨d0, List.mem_filter.mpr ⟨hd0mem, hd0⟩, rfl⟩
  · intro habs
    rw [List.flatMap_eq_nil_iff] at habs
    have hs : s ∈ daysList s e := by
      rw [daysList, List.mem_range']
      exact ⟨0, by omega, by omega⟩
    have he : e ∈ daysList s e := by
      rw [daysList, List.mem_range']
      exact ⟨e - s, by omega, by omega⟩
    have hpick : ∃ d1, d1 ∈ daysList s e ∧ d1 ≠ d0 := by
      by_cases hds : d0 = s
      · exact ⟨e, he, by omega⟩
      · exact ⟨s, hs, fun hcon => hds hcon.symm⟩
    obtain ⟨d1, hd1mem, hd1ne⟩ := hpick
    obtain ⟨rows, hrows, hne⟩ := hothers d1 hd1mem hd1ne
    have hdr : dayRows api t d1 = rows.map normalizeSample := by
      rw [dayRows, fetch_single_chunk, hrows]
    rw [habs d1 hd1mem] at hdr
    exact hne (List.map_eq_nil_iff.mp hdr.symm)

/-- C5 witness: the partial-failure containment at the concrete range
`[0, 1]` with day 0 permanently failing and day 1 delivering one
sample. -/
theorem one_day_permanent_failure_witness :
    (0 < 1 ∧ 1 ≤ 0 + 30 ∧
     apiOneDayDown "QUARTER_OF_AN_HOUR" 0 1 = .error FetchErr.httpError ∧
     0 ∈ daysList 0 1 ∧
     dayFails apiOneDayDown "QUARTER_OF_AN_HOUR" 0 = true ∧
     (∀ d ∈ daysList 0 1, d ≠ 0 →
       ∃ rows, apiOneDayDown "QUARTER_OF_AN_HOUR" d d = .ok rows ∧
         rows ≠ [])) ∧
    ∃ rows warns,
      fetch_energy_chunked apiOneDayDown "QUARTER_OF_AN_HOUR" 0 1 =
        (.ok rows, warns) ∧
      (∀ d ∈ daysList 0 1, d ≠ 0 →
        (dayRows apiOneDayDown "QUARTER_OF_AN_HOUR" d).Sublist rows) ∧
      Warning.dayFailed 0 ∈ warns ∧
      rows ≠ [] := by
  have hothers : ∀ d ∈ daysList 0 1, d ≠ 0 →
      ∃ rows, apiOneDayDown "QUARTER_OF_AN_HOUR" d d = .ok rows ∧
        rows ≠ [] := by
    intro d hd hne
    rw [daysList, List.mem_range'] at hd
    obtain ⟨i, hi, rfl⟩ := hd
    interval_cases i
    · exact absurd (by norm_num) hne
    · exact ⟨[⟨2023, 1, 2, 12, 0, some 5⟩], rfl, List.cons_ne_nil _ _⟩
  exact ⟨⟨by decide, by decide, rfl, by decide, rfl, hothers⟩,
    one_day_permanent_failure apiOneDayDown "QUARTER_OF_AN_HOUR" 0 1 0
      (by decide) (by decide) rfl (by decide) rfl hothers⟩

/-- C6 counterexample: the claim fails as stated when the failures are
timeouts.  On the range `[0, 1]` every chunk fetch and every would-be
fallback day fetch fails (the remote service times out on every
request), but the pipeline does not return an empty dataset with
1 chunk + 2 days = 3 warnings: the very first chunk's `Timeout` is not
caught (only `HTTPError` is), so an exception escapes with zero
warnings emitted. -/
theorem total_timeout_failure_counterexample :
    fetch_energy_chunked (fun _ _ _ => .error FetchErr.timeout)
      "QUARTER_OF_AN_HOUR" 0 1 = (.error FetchErr.timeout, []) ∧
    (chunksList 0 1).length + (1 + 1 - 0) = 3 :=
  ⟨rfl, rfl⟩

/-- C6 (amended: the failures must be HTTP errors, the only kind the
chunk-level handler absorbs): when every fetch fails with an HTTP
error, `fetch_energy_chunked` returns an explicitly empty dataset (not
an error), and the number of warnings equals the number of chunks plus
the number of days across the failed chunks. -/
theorem total_http_failure_empty (api : Api) (t : String) (s e : Nat)
    (hall : ∀ a b, api t a b = .error FetchErr.httpError) :
    ∃ warns,
      fetch_energy_chunked api t s e = (.ok [], warns) ∧
      warns.length = (chunksList s e).length + (e + 1 - s) := by
  obtain ⟨warns, hloop, hlen⟩ :=
    fetchLoopAux_allHttp api t hall (e + 1 - s) s e (le_refl _)
  refine ⟨warns, ?_, hlen⟩
  rw [fetch_energy_chunked, hloop]
  rfl

/-- C6 witness: the all-HTTP-failure behaviour at the concrete range
`[0, 40]` (two chunks, 41 days, hence 43 warnings). -/
theorem total_http_failure_empty_witness :
    (∀ a b,
      (fun (_ : String) (_ _ : Nat) =>
        (Except.error FetchErr.httpError : Except FetchErr (List RawSample)))
        "QUARTER_OF_AN_HOUR" a b = .error FetchErr.httpError) ∧
    ∃ warns,
      fetch_energy_chunked (fun _ _ _ => .error FetchErr.httpError)
        "QUARTER_OF_AN_HOUR" 0 40 = (.ok [], warns) ∧
      warns.length = (chunksList 0 40).length + (40 + 1 - 0) :=
  ⟨fun _ _ => rfl,
   total_http_failure_empty (fun _ _ _ => .error FetchErr.httpError)
     "QUARTER_OF_AN_HOUR" 0 40 (fun _ _ => rfl)⟩

end SolarEdge
